import Mathlib

/-
Verification of the metrics/aggregation and report-assembly pipeline of
`generate_report_ppt.py` / `ai_utils.py` (CholaMS_website).

The pandas DataFrame is embedded column-major: a column either exists for the
whole table (`some cells`) or is entirely absent (`none`), matching
`"col" in df.columns`.  A cell is `null` (NaN, the back-fill pandas uses for a
key missing from one JSON object), a number, or a string.  Row count (`len(df)`)
is carried explicitly as `nRows`; well-formed tables have every present column
of length `nRows`.  Floating point `Risk_Score` values are modelled as
rationals.
-/

inductive Cell where
  | null : Cell
  | num  : ℚ → Cell
  | str  : String → Cell
deriving DecidableEq, Repr

structure Table where
  nRows         : ℕ
  srNo          : Option (List Cell)
  observation   : Option (List Cell)
  recommendation : Option (List Cell)
  priority      : Option (List Cell)
  priorityScore : Option (List Cell)
  hazardType    : Option (List Cell)
  locationNorm  : Option (List Cell)
  assetCategory : Option (List Cell)
  riskScore     : Option (List Cell)
deriving DecidableEq, Repr

/-- A present column has exactly `nRows` cells (pandas keeps all columns the
length of the index).  Bool-valued so concrete tables can be checked by
`decide`. -/
def colWF (c : Option (List Cell)) (n : ℕ) : Bool :=
  match c with
  | none => true
  | some l => l.length == n

/-- `str.upper()` (ASCII case folding, which covers the priority labels). -/
def strUpper (s : String) : String :=
  String.mk (s.data.map Char.toUpper)

/-- `df["Priority"].str.upper()` : the `.str` accessor upper-cases string cells
and yields NaN on non-string cells, so a comparison with a literal is `false`
there. -/
def cellStrUpper : Cell → Option String
  | Cell.str s => some (strUpper s)
  | _ => none

structure KPIs where
  high  : ℕ
  med   : ℕ
  low   : ℕ
  total : ℕ
deriving DecidableEq, Repr

/-- `compute_kpis` (generate_report_ppt.py lines 38-42):
each bucket is `int((df["Priority"].str.upper() == LIT).sum())` guarded by
`if "Priority" in df else 0`, and `total` is `len(df)`. -/
def compute_kpis (t : Table) : KPIs :=
  { high := match t.priority with
      | some col => (col.filter (fun c => cellStrUpper c == some "HIGH")).length
      | none => 0
    med := match t.priority with
      | some col => (col.filter (fun c => cellStrUpper c == some "MEDIUM")).length
      | none => 0
    low := match t.priority with
      | some col => (col.filter (fun c => cellStrUpper c == some "LOW")).length
      | none => 0
    total := t.nRows }

/-- Summed lengths of three pairwise-disjoint filters never exceed the list
length. -/
theorem three_filter_length_le {α : Type} (p q r : α → Bool) (l : List α)
    (hpq : ∀ a, ¬(p a = true ∧ q a = true))
    (hpr : ∀ a, ¬(p a = true ∧ r a = true))
    (hqr : ∀ a, ¬(q a = true ∧ r a = true)) :
    (l.filter p).length + (l.filter q).length + (l.filter r).length ≤ l.length := by
  induction l with
  | nil => simp
  | cons a l ih =>
    by_cases hp : p a = true
    · have hq : ¬ q a = true := fun h => hpq a ⟨hp, h⟩
      have hr : ¬ r a = true := fun h => hpr a ⟨hp, h⟩
      simp [List.filter_cons, hp, hq, hr]
      omega
    · by_cases hq : q a = true
      · have hr : ¬ r a = true := fun h => hqr a ⟨hq, h⟩
        simp [List.filter_cons, hp, hq, hr]
        omega
      · by_cases hr : r a = true
        · simp [List.filter_cons, hp, hq, hr]
          omega
        · simp [List.filter_cons, hp, hq, hr]
          omega

/-- C1: `compute_kpis` returns `total` equal to the row count regardless of
priority values; the high/med/low buckets count only rows whose priority is a
string matching HIGH/MEDIUM/LOW case-insensitively, so `high + med + low ≤
total`; and when the priority column is entirely absent all three buckets are
0 while `total` still reflects the row count. -/
theorem compute_kpis_spec (t : Table) (h : colWF t.priority t.nRows = true) :
    (compute_kpis t).total = t.nRows ∧
    (compute_kpis t).high + (compute_kpis t).med + (compute_kpis t).low ≤
      (compute_kpis t).total ∧
    (∀ col, t.priority = some col →
      (compute_kpis t).high =
        (col.filter (fun c => cellStrUpper c == some "HIGH")).length ∧
      (compute_kpis t).med =
        (col.filter (fun c => cellStrUpper c == some "MEDIUM")).length ∧
      (compute_kpis t).low =
        (col.filter (fun c => cellStrUpper c == some "LOW")).length) ∧
    (t.priority = none →
      (compute_kpis t).high = 0 ∧ (compute_kpis t).med = 0 ∧
      (compute_kpis t).low = 0) := by
  refine ⟨rfl, ?_, ?_, ?_⟩
  · cases hp : t.priority with
    | none => simp [compute_kpis, hp]
    | some col =>
      have hlen : col.length = t.nRows := by
        rw [hp] at h
        simpa [colWF] using h
      have hle := three_filter_length_le
        (fun c => cellStrUpper c == some "HIGH")
        (fun c => cellStrUpper c == some "MEDIUM")
        (fun c => cellStrUpper c == some "LOW") col
        (by intro a ⟨h1, h2⟩
            have e1 : cellStrUpper a = some "HIGH" := eq_of_beq h1
            have e2 : cellStrUpper a = some "MEDIUM" := eq_of_beq h2
            rw [e1] at e2
            exact absurd (Option.some.inj e2) (by decide))
        (by intro a ⟨h1, h2⟩
            have e1 : cellStrUpper a = some "HIGH" := eq_of_beq h1
            have e2 : cellStrUpper a = some "LOW" := eq_of_beq h2
            rw [e1] at e2
            exact absurd (Option.some.inj e2) (by decide))
        (by intro a ⟨h1, h2⟩
            have e1 : cellStrUpper a = some "MEDIUM" := eq_of_beq h1
            have e2 : cellStrUpper a = some "LOW" := eq_of_beq h2
            rw [e1] at e2
            exact absurd (Option.some.inj e2) (by decide))
      simpa [compute_kpis, hp, hlen] using hle
  · intro col hp
    simp [compute_kpis, hp]
  · intro hp
    simp [compute_kpis, hp]

/-- Concrete three-row table with priority column `["high", "Bogus", null]`,
used as witness input. -/
def tblPr3 : Table :=
  { nRows := 3, srNo := none, observation := none, recommendation := none,
    priority := some [Cell.str "high", Cell.str "Bogus", Cell.null],
    priorityScore := none, hazardType := none, locationNorm := none,
    assetCategory := none, riskScore := none }

/-- C1 witness: the spec holds on a concrete three-row table whose priority
column is `["high", "Bogus", null]`. -/
theorem compute_kpis_spec_witness :
    colWF tblPr3.priority tblPr3.nRows = true ∧
    (compute_kpis tblPr3).total = 3 := by
  refine ⟨by decide, ?_⟩
  have h := compute_kpis_spec tblPr3 (by decide)
  exact h.1

/-- `safe_get_col(df, name, default)` (line 35-36): the column itself when
present, else a fresh column of `len(df)` copies of the default.  A present
column is returned as-is, so NaN cells in it are kept. -/
def safe_get_col (col : Option (List Cell)) (n : ℕ) (default : Cell) : List Cell :=
  match col with
  | some l => l
  | none => List.replicate n default

/-- Numeric value of a digit list, most significant first. -/
def natOfDigits (l : List Char) : ℕ :=
  l.foldl (fun a c => a * 10 + (c.toNat - 48)) 0

/-- Decimal literal after an optional sign: digits, optionally followed by a
point and digits (at least one digit overall). -/
def parseUnsigned (l : List Char) : Option ℚ :=
  let ip := l.takeWhile Char.isDigit
  let rest := l.dropWhile Char.isDigit
  match rest with
  | [] => if ip.isEmpty then none else some ((natOfDigits ip : ℕ) : ℚ)
  | '.' :: fp =>
      if (ip.isEmpty && fp.isEmpty) || !(fp.all Char.isDigit) then none
      else some ((natOfDigits ip : ℚ) + (natOfDigits fp : ℚ) / (10 : ℚ) ^ fp.length)
  | _ => none

/-- The decimal-literal core of `pd.to_numeric`'s string parsing: optional
sign then a decimal literal.  (Exponent/whitespace forms are out of scope; the
claims only exercise numeric cells and non-numeric strings.) -/
def parseDec (s : String) : Option ℚ :=
  match s.data with
  | '-' :: rest => (parseUnsigned rest).map (fun q => -q)
  | '+' :: rest => parseUnsigned rest
  | l => parseUnsigned l

/-- `pd.to_numeric(col, errors="coerce")` cell-wise: numbers pass through,
numeric-literal strings parse, everything else (including NaN) coerces to NaN. -/
def toNumericCell : Cell → Option ℚ
  | Cell.num q => some q
  | Cell.str s => parseDec s
  | Cell.null => none

/-- `.astype(int)` on a float value: C-style truncation toward zero. -/
def truncRat (q : ℚ) : ℤ :=
  if q < 0 then ⌈q⌉ else ⌊q⌋

/-- Cell-wise effect of `pd.to_numeric(..., errors="coerce").fillna(0.0)` on the
`Risk_Score` column (line 52). -/
def coerceRisk (c : Cell) : Cell :=
  Cell.num ((toNumericCell c).getD 0)

/-- Cell-wise effect of
`pd.to_numeric(..., errors="coerce").fillna(0).astype(int)` on the
`Priority_Score` column (line 49). -/
def coercePriorityScore (c : Cell) : Cell :=
  Cell.num ((truncRat ((toNumericCell c).getD 0) : ℤ) : ℚ)

/-- `prepare_records` (lines 44-54).  `df.get("Sr. No", Series(range(1, n+1)))`
keeps a present column and otherwise numbers the rows 1..n; the free-text
columns go through `safe_get_col` with default `""`.  The numeric lines are
`pd.to_numeric(df.get(col, 0), errors="coerce").fillna(d)` (plus
`.astype(int)` for `Priority_Score`): with the column present the cells are
coerced and NaN filled by the default, but with the column absent `df.get`
yields the scalar `0`, `pd.to_numeric` returns that scalar unchanged, and the
`.fillna` attribute lookup on a scalar raises `AttributeError` — normalization
raises (line 49 for `Priority_Score`, line 52 for `Risk_Score`) and produces
no table. -/
def prepare_records (t : Table) : Except Unit Table :=
  match t.priorityScore, t.riskScore with
  | some ps, some rs =>
      Except.ok
        { nRows := t.nRows
          srNo := some (match t.srNo with
            | some l => l
            | none => (List.range t.nRows).map (fun i : ℕ => Cell.num ((i : ℚ) + 1)))
          observation := some (safe_get_col t.observation t.nRows (Cell.str ""))
          recommendation := some (safe_get_col t.recommendation t.nRows (Cell.str ""))
          priority := some (safe_get_col t.priority t.nRows (Cell.str ""))
          priorityScore := some (ps.map coercePriorityScore)
          hazardType := some (safe_get_col t.hazardType t.nRows (Cell.str ""))
          locationNorm := some (safe_get_col t.locationNorm t.nRows (Cell.str ""))
          assetCategory := some (safe_get_col t.assetCategory t.nRows (Cell.str ""))
          riskScore := some (rs.map coerceRisk) }
  | _, _ => Except.error ()

/-- A cell holding a number. -/
def Cell.isNum : Cell → Bool
  | Cell.num _ => true
  | _ => false

/-- A cell holding an integer-valued number. -/
def Cell.isIntNum : Cell → Bool
  | Cell.num q => q.den == 1
  | _ => false

theorem coerceRisk_isNum (c : Cell) : (coerceRisk c).isNum = true := rfl

theorem coercePriorityScore_isIntNum (c : Cell) :
    (coercePriorityScore c).isIntNum = true := by
  simp [coercePriorityScore, Cell.isIntNum]

/-- One-row table whose only column is `Risk_Score = ["not_a_number"]`. -/
def tblNaN : Table :=
  { nRows := 1, srNo := none, observation := none, recommendation := none,
    priority := none, priorityScore := none, hazardType := none,
    locationNorm := none, assetCategory := none,
    riskScore := some [Cell.str "not_a_number"] }

/-- C2 (code bug): the claim — and the spec's Finding invariant — say record
normalization succeeds with type-correct defaults regardless of which keys
were present, but the source raises `AttributeError` whenever the
`Priority_Score` or `Risk_Score` column is absent (`pd.to_numeric` returns
the scalar `df.get(col, 0)` default, which has no `.fillna`): on the one-row
table whose only column is `Risk_Score = ["not_a_number"]` normalization
produces no table at all.  Whenever normalization does return a table the
claimed properties hold: every column is present, risk cells are numeric,
priority-score cells are integer-valued, and the non-numeric strings coerce
to `0.0` / integer `0` instead of raising. -/
theorem prepare_records_fields_spec :
    prepare_records tblNaN = Except.error () ∧
    (∀ t t', prepare_records t = Except.ok t' →
      t'.srNo.isSome ∧ t'.observation.isSome ∧ t'.recommendation.isSome ∧
      t'.priority.isSome ∧ t'.priorityScore.isSome ∧ t'.hazardType.isSome ∧
      t'.locationNorm.isSome ∧ t'.assetCategory.isSome ∧ t'.riskScore.isSome ∧
      (∀ l, t'.riskScore = some l → ∀ c ∈ l, c.isNum = true) ∧
      (∀ l, t'.priorityScore = some l → ∀ c ∈ l, c.isIntNum = true)) ∧
    coerceRisk (Cell.str "not_a_number") = Cell.num 0 ∧
    coercePriorityScore (Cell.str "not_a_number") = Cell.num 0 := by
  refine ⟨rfl, ?_, by decide, by decide⟩
  intro t t' h
  cases hps : t.priorityScore with
  | none =>
    cases hrs : t.riskScore with
    | none => simp [prepare_records, hps, hrs] at h
    | some rs => simp [prepare_records, hps, hrs] at h
  | some ps =>
    cases hrs : t.riskScore with
    | none => simp [prepare_records, hps, hrs] at h
    | some rs =>
      rw [prepare_records.eq_def, hps, hrs] at h
      injection h with h2
      subst h2
      refine ⟨rfl, rfl, rfl, rfl, rfl, rfl, rfl, rfl, rfl, ?_, ?_⟩
      · intro l hl c hc
        have : l = rs.map coerceRisk := (Option.some.inj hl).symm
        subst this
        obtain ⟨a, _, rfl⟩ := List.mem_map.mp hc
        exact coerceRisk_isNum a
      · intro l hl c hc
        have : l = ps.map coercePriorityScore := (Option.some.inj hl).symm
        subst this
        obtain ⟨a, _, rfl⟩ := List.mem_map.mp hc
        exact coercePriorityScore_isIntNum a

/-- One-row table with both numeric columns present (both cells non-numeric
strings) and `Sr. No = [7]`. -/
def tblFull : Table :=
  { nRows := 1, srNo := some [Cell.num 7], observation := none,
    recommendation := none, priority := none,
    priorityScore := some [Cell.str "x"], hazardType := none,
    locationNorm := none, assetCategory := none,
    riskScore := some [Cell.str "not_a_number"] }

/-- C2 witness: normalization of the concrete table with both numeric columns
present succeeds, and the spec applies to its output. -/
theorem prepare_records_fields_spec_witness :
    ∃ t', prepare_records tblFull = Except.ok t' ∧ t'.riskScore.isSome ∧
      (∀ l, t'.riskScore = some l → ∀ c ∈ l, c.isNum = true) := by
  refine ⟨_, rfl, ?_, ?_⟩
  · exact (prepare_records_fields_spec.2.1 tblFull _ rfl).2.2.2.2.2.2.2.2.1
  · exact (prepare_records_fields_spec.2.1 tblFull _ rfl).2.2.2.2.2.2.2.2.2.1

theorem coerceRisk_idem (c : Cell) : coerceRisk (coerceRisk c) = coerceRisk c := rfl

theorem truncRat_intCast (k : ℤ) : truncRat (k : ℚ) = k := by
  unfold truncRat
  split
  · exact Int.ceil_intCast k
  · exact Int.floor_intCast k

theorem coercePriorityScore_idem (c : Cell) :
    coercePriorityScore (coercePriorityScore c) = coercePriorityScore c := by
  unfold coercePriorityScore
  simp [toNumericCell, truncRat_intCast]

/-- C9: `prepare_records` is idempotent (in the Kleisli sense, since it can
raise): a failed normalization stays failed, and a table that a successful
normalization returned is left completely unchanged by a second normalization
— all defaults are already filled and the numeric coercions are the identity
on already-coerced columns — so applying it twice equals applying it once. -/
theorem prepare_records_idem :
    (∀ t, (prepare_records t).bind prepare_records = prepare_records t) ∧
    (∀ t t', prepare_records t = Except.ok t' →
      prepare_records t' = Except.ok t') := by
  have hps2 : coercePriorityScore ∘ coercePriorityScore = coercePriorityScore :=
    funext coercePriorityScore_idem
  have hrs2 : coerceRisk ∘ coerceRisk = coerceRisk := funext coerceRisk_idem
  have key : ∀ t t', prepare_records t = Except.ok t' →
      prepare_records t' = Except.ok t' := by
    intro t t' h
    cases hps : t.priorityScore with
    | none =>
      cases hrs : t.riskScore with
      | none => simp [prepare_records, hps, hrs] at h
      | some rs => simp [prepare_records, hps, hrs] at h
    | some ps =>
      cases hrs : t.riskScore with
      | none => simp [prepare_records, hps, hrs] at h
      | some rs =>
        rw [prepare_records.eq_def, hps, hrs] at h
        injection h with h2
        subst h2
        simp [prepare_records, safe_get_col, List.map_map, hps2, hrs2]
  refine ⟨?_, key⟩
  intro t
  cases hres : prepare_records t with
  | error e => rfl
  | ok t' =>
    show prepare_records t' = Except.ok t'
    exact key t t' hres

/-- C9 witness: the concrete normalized table is a fixed point. -/
theorem prepare_records_idem_witness :
    ∃ t', prepare_records tblFull = Except.ok t' ∧
      prepare_records t' = Except.ok t' :=
  ⟨_, rfl, prepare_records_idem.2 tblFull _ rfl⟩

/-- One-row table with `Sr. No` absent and both numeric columns present. -/
def tblNoSr : Table :=
  { nRows := 1, srNo := none, observation := none, recommendation := none,
    priority := none, priorityScore := some [Cell.num 0], hazardType := none,
    locationNorm := none, assetCategory := none,
    riskScore := some [Cell.num 0] }

/-- C10 counterexample: on the one-row table with `Sr. No` absent (and
`Priority_Score` absent), `prepare_records` raises instead of assigning
sequence numbers — no normalized table carrying `Sr. No = [1]` exists. -/
theorem prepare_records_srno_counterexample :
    tblNaN.srNo = none ∧ prepare_records tblNaN = Except.error () :=
  ⟨rfl, rfl⟩

/-- C10 (amended): whenever `prepare_records` returns a table at all (it
raises when `Priority_Score` or `Risk_Score` is absent), an absent `Sr. No`
column has been assigned consecutive sequence numbers 1..n in original row
order (cell `i` is `i+1`), and a present column is kept verbatim. -/
theorem prepare_records_srno_spec (t t' : Table)
    (h : prepare_records t = Except.ok t') :
    (t.srNo = none →
      ∃ l, t'.srNo = some l ∧ l.length = t.nRows ∧
        ∀ i, i < t.nRows → l[i]? = some (Cell.num ((i : ℚ) + 1))) ∧
    (∀ l, t.srNo = some l → t'.srNo = some l) := by
  cases hps : t.priorityScore with
  | none =>
    cases hrs : t.riskScore with
    | none => simp [prepare_records, hps, hrs] at h
    | some rs => simp [prepare_records, hps, hrs] at h
  | some ps =>
    cases hrs : t.riskScore with
    | none => simp [prepare_records, hps, hrs] at h
    | some rs =>
      rw [prepare_records.eq_def, hps, hrs] at h
      injection h with h2
      subst h2
      constructor
      · intro hn
        refine ⟨(List.range t.nRows).map (fun i : ℕ => Cell.num ((i : ℚ) + 1)),
          by rw [hn], ?_, ?_⟩
        · rw [List.length_map, List.length_range]
        · intro i hi
          rw [List.getElem?_map, List.getElem?_range hi]
          rfl
      · intro l hl
        rw [hl]

/-- C10 witness: with both numeric columns present, an absent `Sr. No` on a
one-row table yields the consecutive numbering and a present column `[7]` is
kept verbatim. -/
theorem prepare_records_srno_spec_witness :
    (∃ t', prepare_records tblNoSr = Except.ok t' ∧
      ∃ l, t'.srNo = some l ∧ l.length = tblNoSr.nRows ∧
        ∀ i, i < tblNoSr.nRows → l[i]? = some (Cell.num ((i : ℚ) + 1))) ∧
    (∃ t', prepare_records tblFull = Except.ok t' ∧
      t'.srNo = some [Cell.num 7]) :=
  ⟨⟨_, rfl, (prepare_records_srno_spec tblNoSr _ rfl).1 rfl⟩,
   ⟨_, rfl, (prepare_records_srno_spec tblFull _ rfl).2 [Cell.num 7] rfl⟩⟩

/-- Rows included in the `generate_priority_details` prompt (lines 81-92):
`if priority.upper() == "ALL"` the whole table is used, otherwise the rows with
`df["Priority"].str.upper() == priority.upper()`; then `sub_df.head(20)` keeps
the first 20 of those rows in table order.  Each element pairs the original
row index with its priority cell. -/
def generate_priority_details_rows (col : List Cell) (p : String) :
    List (ℕ × Cell) :=
  (if strUpper p == "ALL" then col.enum
   else col.enum.filter (fun ic => cellStrUpper ic.2 == some (strUpper p))).take 20

/-- C5: the priority-detail prompt builder selects rows by exact
case-insensitive match on the priority field, `"ALL"` bypasses filtering, at
most the first 20 rows in table order are kept (indices refer to the original
table and stay increasing), and `"high"`/`"High"`/`"HIGH"` are all selected by
filter `"HIGH"`. -/
theorem generate_priority_details_spec (col : List Cell) (p : String) :
    (generate_priority_details_rows col p).length ≤ 20 ∧
    (strUpper p = "ALL" →
      generate_priority_details_rows col p = col.enum.take 20) ∧
    (strUpper p ≠ "ALL" →
      ∀ ic ∈ generate_priority_details_rows col p,
        cellStrUpper ic.2 = some (strUpper p)) ∧
    (∀ ic ∈ generate_priority_details_rows col p, col[ic.1]? = some ic.2) ∧
    List.Pairwise (fun a b => a.1 < b.1) (generate_priority_details_rows col p) ∧
    generate_priority_details_rows
        [Cell.str "high", Cell.str "High", Cell.str "HIGH"] "HIGH" =
      [(0, Cell.str "high"), (1, Cell.str "High"), (2, Cell.str "HIGH")] := by
  refine ⟨List.length_take_le _ _, ?_, ?_, ?_, ?_, by decide⟩
  · intro hall
    simp [generate_priority_details_rows, hall]
  · intro hne ic hic
    have hmem := (List.take_sublist _ _).subset hic
    unfold generate_priority_details_rows at hmem
    rw [if_neg (by simpa using hne)] at hmem
    have hb := List.of_mem_filter hmem
    exact eq_of_beq hb
  · intro ic hic
    have hmem := (List.take_sublist _ _).subset hic
    unfold generate_priority_details_rows at hmem
    split at hmem
    · exact List.mem_enum_iff_getElem?.mp hmem
    · exact List.mem_enum_iff_getElem?.mp ((List.filter_sublist _).subset hmem)
  · have henum : List.Pairwise (fun a b : ℕ × Cell => a.1 < b.1) col.enum := by
      rw [← List.pairwise_map (f := Prod.fst)]
      rw [List.enum_map_fst]
      exact List.pairwise_lt_range col.length
    unfold generate_priority_details_rows
    split
    · exact List.Pairwise.sublist (List.take_sublist _ _) henum
    · exact List.Pairwise.sublist (List.take_sublist _ _)
        (List.Pairwise.sublist (List.filter_sublist _) henum)

/-- C5 witness: on the concrete mixed-case column, filter `"HIGH"` keeps all
three rows and filter `"all"` bypasses filtering. -/
theorem generate_priority_details_spec_witness :
    (∀ ic ∈ generate_priority_details_rows
        [Cell.str "high", Cell.str "HIGH"] "HIGH",
      cellStrUpper ic.2 = some (strUpper "HIGH")) ∧
    generate_priority_details_rows [Cell.str "low"] "all" =
      (List.enum [Cell.str "low"]).take 20 :=
  ⟨(generate_priority_details_spec [Cell.str "high", Cell.str "HIGH"] "HIGH").2.2.1
      (by decide),
   (generate_priority_details_spec [Cell.str "low"] "all").2.1 (by decide)⟩

/-
`generate_text` (ai_utils.py lines 12-25).  The outcome of the single external
interaction (building the model object, calling `generate_content`, and reading
`resp.text`) is abstracted as one value per attempt; the straight-line body
consults only the first attempt.
-/

inductive CallOutcome where
  /-- the client raised anywhere inside the `try` block -/
  | raises : CallOutcome
  /-- `generate_content` returned a falsy response (`resp` empty) -/
  | falsyResp : CallOutcome
  /-- `resp.text` itself raised (e.g. no candidates); still inside the `try` -/
  | textRaises : CallOutcome
  /-- the call produced text -/
  | text : String → CallOutcome
deriving DecidableEq, Repr

/-- Whether an outcome is a failure (anything but produced text). -/
def CallOutcome.failed : CallOutcome → Bool
  | CallOutcome.text _ => false
  | _ => true

/-- `generate_text(prompt, max_output_tokens)`: `if not USE_GEMINI: return
None`; otherwise one call inside `try`, returning `resp.text if resp else
None`, with `except Exception: return None`. -/
def generate_text (useGemini : Bool) (attempts : ℕ → CallOutcome) : Option String :=
  if useGemini = false then none
  else
    match attempts 0 with
    | CallOutcome.raises => none
    | CallOutcome.falsyResp => none
    | CallOutcome.textRaises => none
    | CallOutcome.text s => some s

/-- C7: `generate_text` returns an absent value rather than raising on any
failure — exception from the service call, missing/falsy response, failing
text extraction, or no credential configured — and never retries: its result
depends only on the first attempt. -/
theorem generate_text_spec (useGemini : Bool) (attempts : ℕ → CallOutcome) :
    ((attempts 0).failed = true → generate_text useGemini attempts = none) ∧
    (useGemini = false → generate_text useGemini attempts = none) ∧
    (∀ attempts' : ℕ → CallOutcome, attempts 0 = attempts' 0 →
      generate_text useGemini attempts = generate_text useGemini attempts') := by
  refine ⟨?_, ?_, ?_⟩
  · intro hf
    cases h0 : attempts 0 with
    | raises => simp [generate_text, h0]
    | falsyResp => simp [generate_text, h0]
    | textRaises => simp [generate_text, h0]
    | text s => rw [h0] at hf; exact absurd hf (by simp [CallOutcome.failed])
  · intro hu
    simp [generate_text, hu]
  · intro attempts' h0
    unfold generate_text
    rw [h0]

/-- C7 witness: a concrete always-raising attempt sequence yields `none`, and
the result agrees with any sequence sharing the first attempt. -/
theorem generate_text_spec_witness :
    ((CallOutcome.raises).failed = true →
      generate_text true (fun _ => CallOutcome.raises) = none) ∧
    generate_text true (fun _ => CallOutcome.raises) =
      generate_text true (fun n => if n = 0 then CallOutcome.raises
        else CallOutcome.text "retry") :=
  ⟨fun h => (generate_text_spec true (fun _ => CallOutcome.raises)).1 h,
   (generate_text_spec true (fun _ => CallOutcome.raises)).2.2
     (fun n => if n = 0 then CallOutcome.raises else CallOutcome.text "retry")
     (by decide)⟩

/-- Python `/`: raises `ZeroDivisionError` on a zero denominator, otherwise
true division. -/
def pydiv (a b : ℚ) : Except Unit ℚ :=
  if b = 0 then Except.error () else Except.ok (a / b)

/-- The percentage statistics of `create_risk_distribution_slide`
(lines 285-306): `high_count/total_records*100` and its medium/low analogues,
formatted into the slide body with no guard on `total_records == 0`. -/
def create_risk_distribution_stats (t : Table) : Except Unit (ℚ × ℚ × ℚ) := do
  let total : ℚ := ((compute_kpis t).total : ℚ)
  let hp ← pydiv ((compute_kpis t).high : ℚ) total
  let mp ← pydiv ((compute_kpis t).med : ℚ) total
  let lp ← pydiv ((compute_kpis t).low : ℚ) total
  pure (hp * 100, mp * 100, lp * 100)

/-- C8: the risk-distribution percentages are computed without guarding
`total == 0`: on an empty table (zero rows) the computation raises a division
by zero instead of producing the slide, and on a non-empty table it succeeds. -/
theorem create_risk_distribution_stats_spec (t : Table) :
    (t.nRows = 0 → create_risk_distribution_stats t = Except.error ()) ∧
    (t.nRows ≠ 0 → ∃ x, create_risk_distribution_stats t = Except.ok x) := by
  constructor
  · intro h0
    have ht : ((compute_kpis t).total : ℚ) = 0 := by
      simp [compute_kpis, h0]
    simp only [create_risk_distribution_stats, ht, pydiv, if_pos]
    rfl
  · intro hn
    have ht : ((compute_kpis t).total : ℚ) ≠ 0 := by
      simp [compute_kpis]
      exact_mod_cast hn
    refine ⟨(((compute_kpis t).high : ℚ) / ((compute_kpis t).total : ℚ) * 100,
            ((compute_kpis t).med : ℚ) / ((compute_kpis t).total : ℚ) * 100,
            ((compute_kpis t).low : ℚ) / ((compute_kpis t).total : ℚ) * 100), ?_⟩
    simp only [create_risk_distribution_stats, pydiv, if_neg ht]
    rfl

/-- Zero-row table with no columns. -/
def tblEmpty : Table :=
  { nRows := 0, srNo := none, observation := none, recommendation := none,
    priority := none, priorityScore := none, hazardType := none,
    locationNorm := none, assetCategory := none, riskScore := none }

/-- C8 witness: the empty table raises the division by zero; the concrete
three-row table succeeds. -/
theorem create_risk_distribution_stats_spec_witness :
    create_risk_distribution_stats tblEmpty = Except.error () ∧
    ∃ x, create_risk_distribution_stats tblPr3 = Except.ok x :=
  ⟨(create_risk_distribution_stats_spec tblEmpty).1 rfl,
   (create_risk_distribution_stats_spec tblPr3).2 (by decide)⟩

/-
The group rollup of `create_location_analysis_slide` (lines 352-358) and
`create_hazard_analysis_slide` (lines 379-385):
`df.groupby(K)["Risk_Score"].agg(['sum','mean','count']).round(2)
   .sort_values('sum', ascending=False)`.
`groupby` (with its default `sort=True`) emits one row per distinct key in
ascending key order; `.round(2)` rounds sum and mean half-to-even to 2
decimals; `sort_values` then reorders by the rounded sum, descending, with
its pandas default `kind='quicksort'` (numpy introsort) — deterministic, but
guaranteed stable only below numpy's insertion-sort threshold of 16 elements.
The model fixes a stable descending sort.  Of the program this determines,
for every input, the row multiset and the descending-by-sum order (true of
any comparison sort the program may run), while the model's tie order
coincides with the program's only when there are at most 16 groups (there
introsort is exactly insertion sort); the tie-order statement below is
therefore asserted only under that bound.  Python compares strings
lexicographically by code point, embedded below as `lexLt`.
-/

/-- Code-point lexicographic strict order on char lists. -/
def lexLt : List Char → List Char → Bool
  | _, [] => false
  | [], _ :: _ => true
  | a :: as, b :: bs => if a = b then lexLt as bs else decide (a.toNat < b.toNat)

/-- Python `s < t` on strings. -/
def strLt (s t : String) : Bool := lexLt s.data t.data

/-- Python `s <= t` on strings. -/
def strLe (s t : String) : Bool := strLt s t || s == t

theorem lexLt_trans : ∀ {a b c : List Char},
    lexLt a b = true → lexLt b c = true → lexLt a c = true
  | _, _, [], _, h2 => absurd h2 (by simp [lexLt])
  | _, [], _ :: _, h1, _ => absurd h1 (by simp [lexLt])
  | [], _ :: _, _ :: _, _, _ => rfl
  | x :: xs, y :: ys, c :: cs, h1, h2 => by
    simp only [lexLt] at h1 h2 ⊢
    by_cases hxy : x = y
    · subst hxy
      by_cases hyc : x = c
      · subst hyc
        rw [if_pos rfl] at h1 h2 ⊢
        exact lexLt_trans h1 h2
      · rw [if_neg hyc] at h2 ⊢
        exact h2
    · by_cases hyc : y = c
      · subst hyc
        rw [if_neg hxy] at h1 ⊢
        exact h1
      · rw [if_neg hxy] at h1
        rw [if_neg hyc] at h2
        have hx := of_decide_eq_true h1
        have hy := of_decide_eq_true h2
        by_cases hxc : x = c
        · subst hxc
          exact absurd (Nat.lt_trans hx hy) (Nat.lt_irrefl _)
        · rw [if_neg hxc]
          exact decide_eq_true (Nat.lt_trans hx hy)

theorem lexLt_asymm : ∀ {a b : List Char},
    lexLt a b = true → lexLt b a = false
  | _, [], h => by simp [lexLt] at h
  | [], _ :: _, _ => rfl
  | x :: xs, y :: ys, h => by
    simp only [lexLt] at h ⊢
    by_cases hxy : x = y
    · subst hxy
      rw [if_pos rfl] at h ⊢
      exact lexLt_asymm h
    · rw [if_neg hxy] at h
      rw [if_neg (fun hyx => hxy hyx.symm)]
      have hx := of_decide_eq_true h
      exact decide_eq_false (Nat.lt_asymm hx)

theorem lexLt_eq_of_not : ∀ {a b : List Char},
    lexLt a b = false → lexLt b a = false → a = b
  | [], [], _, _ => rfl
  | [], _ :: _, h1, _ => by simp [lexLt] at h1
  | _ :: _, [], _, h2 => by simp [lexLt] at h2
  | x :: xs, y :: ys, h1, h2 => by
    simp only [lexLt] at h1 h2
    by_cases hxy : x = y
    · subst hxy
      rw [if_pos rfl] at h1 h2
      rw [lexLt_eq_of_not h1 h2]
    · rw [if_neg hxy] at h1
      rw [if_neg (fun hyx => hxy hyx.symm)] at h2
      have hx := of_decide_eq_false h1
      have hy := of_decide_eq_false h2
      have : x.toNat = y.toNat := Nat.le_antisymm (Nat.le_of_not_lt hy) (Nat.le_of_not_lt hx)
      exact absurd (Char.ext (UInt32.toNat.inj this)) hxy

theorem strLe_total (s t : String) : strLe s t = true ∨ strLe t s = true := by
  cases h1 : lexLt s.data t.data with
  | true => exact Or.inl (by simp [strLe, strLt, h1])
  | false =>
    cases h2 : lexLt t.data s.data with
    | true => exact Or.inr (by simp [strLe, strLt, h2])
    | false =>
      have : s = t := by
        cases s; cases t
        exact congrArg String.mk (lexLt_eq_of_not h1 h2)
      exact Or.inl (by simp [strLe, strLt, h1, this])

theorem strLe_trans {s t u : String} (h1 : strLe s t = true)
    (h2 : strLe t u = true) : strLe s u = true := by
  simp only [strLe, strLt, Bool.or_eq_true, beq_iff_eq] at h1 h2 ⊢
  rcases h1 with h1 | h1
  · rcases h2 with h2 | h2
    · exact Or.inl (lexLt_trans h1 h2)
    · subst h2; exact Or.inl h1
  · subst h1; exact h2

theorem strLt_of_strLe_ne {s t : String} (h : strLe s t = true) (hne : s ≠ t) :
    strLt s t = true := by
  simp only [strLe, Bool.or_eq_true, beq_iff_eq] at h
  rcases h with h | h
  · exact h
  · exact absurd h hne

/-- One rollup row: a group key with the rounded sum, rounded mean, and count
of its metric values. -/
structure Agg where
  key   : String
  sum   : ℚ
  mean  : ℚ
  count : ℕ
deriving DecidableEq, Repr

/-- Round half to even (numpy's rounding), at integer precision. -/
def roundHalfEven (q : ℚ) : ℤ :=
  let f := ⌊q⌋
  let r := q - (f : ℚ)
  if r < 1/2 then f
  else if 1/2 < r then f + 1
  else if f % 2 = 0 then f else f + 1

/-- `.round(2)`. -/
def round2 (q : ℚ) : ℚ := ((roundHalfEven (q * 100) : ℤ) : ℚ) / 100

/-- Distinct group keys in ascending order — the row order `groupby` (with the
default `sort=True`) produces. -/
def groupKeys (pairs : List (String × ℚ)) : List String :=
  List.insertionSort (fun s t => strLe s t = true) (pairs.map Prod.fst).dedup

/-- The aggregate row for one group: sum, mean (= sum/count) and count of the
metric over the rows carrying this key, rounded to 2 decimals. -/
def aggFor (pairs : List (String × ℚ)) (k : String) : Agg :=
  let vs := (pairs.filter (fun pr => pr.1 == k)).map Prod.snd
  { key := k, sum := round2 vs.sum,
    mean := round2 (vs.sum / (vs.length : ℚ)), count := vs.length }

/-- The rollup: one aggregate row per distinct key, ordered by
`sort_values('sum', ascending=False)` applied to the key-ascending `groupby`
output. -/
def rollup (pairs : List (String × ℚ)) : List Agg :=
  List.insertionSort (fun x y : Agg => y.sum ≤ x.sum)
    ((groupKeys pairs).map (aggFor pairs))

/-- Descending by sum, ties ascending by key. -/
def relLex (a b : Agg) : Prop :=
  b.sum < a.sum ∨ (a.sum = b.sum ∧ strLt a.key b.key = true)

theorem relLex_le {a b : Agg} (h : relLex a b) : b.sum ≤ a.sum := by
  rcases h with h | ⟨h, _⟩
  · exact le_of_lt h
  · exact le_of_eq h.symm

/-- Inserting an element whose key is below every key present keeps the list
sorted for `relLex` (stability of the descending insertion sort). -/
theorem orderedInsert_relLex {a : Agg} :
    ∀ {L : List Agg}, List.Sorted relLex L →
    (∀ b ∈ L, strLt a.key b.key = true) →
    List.Sorted relLex (List.orderedInsert (fun x y : Agg => y.sum ≤ x.sum) a L)
  | [], _, _ => List.sorted_singleton a
  | b :: L, hs, hk => by
    rw [List.orderedInsert]
    by_cases hab : b.sum ≤ a.sum
    · rw [if_pos hab]
      refine List.sorted_cons.mpr ⟨?_, hs⟩
      intro x hx
      have hxa : x.sum ≤ a.sum := by
        rcases List.mem_cons.mp hx with rfl | hx'
        · exact hab
        · exact le_trans (relLex_le ((List.sorted_cons.mp hs).1 x hx')) hab
      rcases lt_or_eq_of_le hxa with hlt | heq
      · exact Or.inl hlt
      · exact Or.inr ⟨heq.symm, hk x hx⟩
    · rw [if_neg hab]
      have hs' := List.sorted_cons.mp hs
      refine List.sorted_cons.mpr ⟨?_, orderedInsert_relLex hs'.2
        (fun c hc => hk c (List.mem_cons_of_mem b hc))⟩
      intro x hx
      rcases (List.mem_orderedInsert _).mp hx with rfl | hx
      · exact Or.inl (lt_of_not_ge hab)
      · exact hs'.1 x hx

/-- The descending insertion sort of a key-ascending list is sorted for
`relLex`: equal sums stay in ascending key order. -/
theorem insertionSort_relLex :
    ∀ {l : List Agg}, l.Pairwise (fun x y => strLt x.key y.key = true) →
    List.Sorted relLex (List.insertionSort (fun x y : Agg => y.sum ≤ x.sum) l)
  | [], _ => List.sorted_nil
  | a :: l, hl => by
    have hp := List.pairwise_cons.mp hl
    rw [List.insertionSort]
    refine orderedInsert_relLex (insertionSort_relLex hp.2) ?_
    intro b hb
    exact hp.1 b ((List.perm_insertionSort _ l).subset hb)

/-- `groupby(sort=True)` row order: the distinct keys come out strictly
ascending. -/
theorem groupKeys_pairwise_lt (pairs : List (String × ℚ)) :
    (groupKeys pairs).Pairwise (fun s t => strLt s t = true) := by
  haveI : IsTotal String (fun s t => strLe s t = true) := ⟨strLe_total⟩
  haveI : IsTrans String (fun s t => strLe s t = true) :=
    ⟨fun _ _ _ => strLe_trans⟩
  have hsorted : List.Sorted (fun s t => strLe s t = true) (groupKeys pairs) :=
    List.sorted_insertionSort _ _
  have hnodup : (groupKeys pairs).Nodup :=
    ((List.perm_insertionSort _ _).nodup_iff).mpr (List.nodup_dedup _)
  exact (hsorted.and hnodup).imp (fun h => strLt_of_strLe_ne h.1 h.2)

/-- C4 (amended): the rollup produces one `(group, sum, mean, count)` row per
distinct key, ordered by (rounded) sum descending; equal sums do not keep
first-encountered group order — when the table has at most 16 distinct groups
(numpy's insertion-sort regime, which covers the top-10/top-8 rollup tables
the slides display) tied rows appear in ascending lexicographic key order,
the order the key-sorted `groupby` produced, and beyond 16 groups the tie
order is unspecified (unstable quicksort). -/
theorem rollup_order_spec (pairs : List (String × ℚ)) :
    List.Sorted (fun x y : Agg => y.sum ≤ x.sum) (rollup pairs) ∧
    (∀ a ∈ rollup pairs, a = aggFor pairs a.key) ∧
    ((rollup pairs).map Agg.key).Perm (pairs.map Prod.fst).dedup ∧
    ((groupKeys pairs).length ≤ 16 → List.Sorted relLex (rollup pairs)) := by
  have hpw : ((groupKeys pairs).map (aggFor pairs)).Pairwise
      (fun x y => strLt x.key y.key = true) := by
    rw [List.pairwise_map]
    exact groupKeys_pairwise_lt pairs
  have hlex : List.Sorted relLex (rollup pairs) := insertionSort_relLex hpw
  refine ⟨hlex.imp (fun h => relLex_le h), ?_, ?_, fun _ => hlex⟩
  · intro a ha
    have hmem : a ∈ (groupKeys pairs).map (aggFor pairs) :=
      (List.perm_insertionSort _ _).subset ha
    obtain ⟨k, _, rfl⟩ := List.mem_map.mp hmem
    rfl
  · have h1 : ((rollup pairs).map Agg.key).Perm
        (((groupKeys pairs).map (aggFor pairs)).map Agg.key) :=
      List.Perm.map Agg.key (List.perm_insertionSort _ _)
    have h2 : ((groupKeys pairs).map (aggFor pairs)).map Agg.key
        = groupKeys pairs := by
      rw [List.map_map]
      have he : ∀ k ∈ groupKeys pairs, (Agg.key ∘ aggFor pairs) k = id k :=
        fun k _ => rfl
      rw [List.map_congr_left he, List.map_id]
    rw [h2] at h1
    exact h1.trans (List.perm_insertionSort _ _)

theorem aggFor_BA_A :
    aggFor [("B", (1 : ℚ)), ("A", 1)] "A" =
      { key := "A", sum := 1, mean := 1, count := 1 } := by
  have h1 : (([("B", (1 : ℚ)), ("A", 1)].filter
      (fun pr => pr.1 == "A")).map Prod.snd) = [1] := by decide
  unfold aggFor
  rw [h1]
  norm_num
  unfold round2 roundHalfEven
  norm_num

theorem aggFor_BA_B :
    aggFor [("B", (1 : ℚ)), ("A", 1)] "B" =
      { key := "B", sum := 1, mean := 1, count := 1 } := by
  have h1 : (([("B", (1 : ℚ)), ("A", 1)].filter
      (fun pr => pr.1 == "B")).map Prod.snd) = [1] := by decide
  unfold aggFor
  rw [h1]
  norm_num
  unfold round2 roundHalfEven
  norm_num

theorem rollup_BA :
    rollup [("B", (1 : ℚ)), ("A", 1)] =
      [{ key := "A", sum := 1, mean := 1, count := 1 },
       { key := "B", sum := 1, mean := 1, count := 1 }] := by
  have hg : groupKeys [("B", (1 : ℚ)), ("A", 1)] = ["A", "B"] := by decide
  unfold rollup
  rw [hg, List.map_cons, List.map_cons, List.map_nil, aggFor_BA_A, aggFor_BA_B]
  simp [List.insertionSort, List.orderedInsert]

/-- C4 counterexample: on the table `[("B", 1.0), ("A", 1.0)]` the groups tie
on sum; the rollup lists `A` before `B` (ascending key order from `groupby`),
not the first-encountered order `B`, `A` the claim asserts. -/
theorem rollup_tie_counterexample :
    rollup [("B", 1), ("A", 1)] =
      [{ key := "A", sum := 1, mean := 1, count := 1 },
       { key := "B", sum := 1, mean := 1, count := 1 }] ∧
    rollup [("B", 1), ("A", 1)] ≠
      [{ key := "B", sum := 1, mean := 1, count := 1 },
       { key := "A", sum := 1, mean := 1, count := 1 }] := by
  refine ⟨rollup_BA, ?_⟩
  rw [rollup_BA]
  decide

/-- C4 witness: on the tied two-group table (2 ≤ 16 groups), the `A`
aggregate is a row of the rollup, it equals `aggFor` of its own key, and the
tie-order statement applies. -/
theorem rollup_order_spec_witness :
    aggFor [("B", (1 : ℚ)), ("A", 1)] "A" ∈ rollup [("B", 1), ("A", 1)] ∧
    aggFor [("B", (1 : ℚ)), ("A", 1)] "A" =
      aggFor [("B", (1 : ℚ)), ("A", 1)]
        (aggFor [("B", (1 : ℚ)), ("A", 1)] "A").key ∧
    List.Sorted relLex (rollup [("B", 1), ("A", 1)]) := by
  have hmem : aggFor [("B", (1 : ℚ)), ("A", 1)] "A" ∈
      rollup [("B", 1), ("A", 1)] := by
    rw [rollup_BA, aggFor_BA_A]
    exact List.mem_cons_self _ _
  exact ⟨hmem, (rollup_order_spec [("B", 1), ("A", 1)]).2.1 _ hmem,
    (rollup_order_spec [("B", 1), ("A", 1)]).2.2.2 (by decide)⟩

/-
`clean_html_text` (lines 468-484): `re.sub('<[^<]+?>', '', s)`, then the four
entity replacements (`&nbsp;`→' ', `&amp;`→'&', `&lt;`→'<', `&gt;`→'>', in that
order, each a left-to-right non-overlapping `str.replace`), then
`re.sub(r'\s+', ' ', s).strip()`.  The tag regex is lazy: a match is a '<',
one or more non-'<' characters, then the first following '>'.  Recursions
carry explicit fuel (one unit per character consumed, so `l.length` always
suffices) to stay structural.
-/

/-- Python regex `\s` for `str` patterns, which is the Unicode whitespace
predicate (`Py_UNICODE_ISSPACE`, also what `str.strip()` strips): TAB..CR
(0x09-0x0D), the separators 0x1C-0x1F, SPACE, NEL (0x85), NBSP (0xA0), OGHAM
SPACE MARK (0x1680), the typographic spaces 0x2000-0x200A, LINE and PARAGRAPH
SEPARATOR (0x2028, 0x2029), NNBSP (0x202F), MMSP (0x205F), and IDEOGRAPHIC
SPACE (0x3000). -/
def isSpaceChar (c : Char) : Bool :=
  (0x09 ≤ c.toNat ∧ c.toNat ≤ 0x0D) ∨ (0x1C ≤ c.toNat ∧ c.toNat ≤ 0x1F) ∨
  c.toNat = 0x20 ∨ c.toNat = 0x85 ∨ c.toNat = 0xA0 ∨ c.toNat = 0x1680 ∨
  (0x2000 ≤ c.toNat ∧ c.toNat ≤ 0x200A) ∨ c.toNat = 0x2028 ∨
  c.toNat = 0x2029 ∨ c.toNat = 0x202F ∨ c.toNat = 0x205F ∨ c.toNat = 0x3000

/-- After `<` and one non-`<` character: scan for the first `>`, failing on a
`<` (which `[^<]` cannot match). -/
def findTagEnd : List Char → Option (List Char)
  | [] => none
  | c :: rest =>
    if c = '>' then some rest
    else if c = '<' then none
    else findTagEnd rest

/-- Does `[^<]+?>` match here (input: the characters after a `<`)?  Returns
the remainder after the closing `>`. -/
def tagMatch : List Char → Option (List Char)
  | [] => none
  | c :: rest => if c = '<' then none else findTagEnd rest

/-- `re.sub('<[^<]+?>', '', ·)`, with fuel. -/
def stripTagsFuel : ℕ → List Char → List Char
  | 0, l => l
  | _ + 1, [] => []
  | fuel + 1, c :: rest =>
    if c = '<' then
      match tagMatch rest with
      | some rest2 => stripTagsFuel fuel rest2
      | none => c :: stripTagsFuel fuel rest
    else c :: stripTagsFuel fuel rest

def stripTags (l : List Char) : List Char := stripTagsFuel l.length l

/-- Does `pat` match at the head of the list? -/
def headMatches : List Char → List Char → Bool
  | [], _ => true
  | _ :: _, [] => false
  | p :: ps, c :: cs => decide (p = c) && headMatches ps cs

/-- One `str.replace(pat, r)` pass (left-to-right, non-overlapping; the
replacement is never rescanned), with fuel. -/
def replaceFuel (pat : List Char) (r : Char) : ℕ → List Char → List Char
  | 0, l => l
  | _ + 1, [] => []
  | fuel + 1, c :: rest =>
    if headMatches pat (c :: rest) then
      r :: replaceFuel pat r fuel ((c :: rest).drop pat.length)
    else c :: replaceFuel pat r fuel rest

/-- `str.replace(pat, r)` for a single-character replacement. -/
def pyReplace (pat : List Char) (r : Char) (l : List Char) : List Char :=
  replaceFuel pat r l.length l

/-- The four entity replacements of `clean_html_text`, in source order. -/
def decodeEntities (l : List Char) : List Char :=
  pyReplace ['&', 'g', 't', ';'] '>'
    (pyReplace ['&', 'l', 't', ';'] '<'
      (pyReplace ['&', 'a', 'm', 'p', ';'] '&'
        (pyReplace ['&', 'n', 'b', 's', 'p', ';'] ' ' l)))

/-- `\s` characters all become a plain space, other characters survive. -/
def spaceify (c : Char) : Char := if isSpaceChar c then ' ' else c

/-- Collapse runs of spaces to a single space. -/
def squashSp : List Char → List Char
  | [] => []
  | [c] => [c]
  | c1 :: c2 :: rest =>
    if c1 = ' ' ∧ c2 = ' ' then squashSp (c2 :: rest)
    else c1 :: squashSp (c2 :: rest)

/-- `re.sub(r'\s+', ' ', ·)`. -/
def collapseWs (l : List Char) : List Char := squashSp (l.map spaceify)

/-- `.strip()`. -/
def stripEnds (l : List Char) : List Char :=
  ((l.dropWhile isSpaceChar).reverse.dropWhile isSpaceChar).reverse

/-- The pure text transform of `clean_html_text`. -/
def cleanCore (l : List Char) : List Char :=
  stripEnds (collapseWs (decodeEntities (stripTags l)))

/-- `clean_html_text(html_text)`: a falsy argument (absent narrative, or the
empty string) yields the placeholder; otherwise the transform runs. -/
def clean_html_text : Option String → String
  | none => "Content not available"
  | some s =>
    if s.data.isEmpty then "Content not available"
    else String.mk (cleanCore s.data)

/-- C6 counterexample: the stripping transform is not idempotent.  On `"<a>"`
one application yields `""` (the tag is removed and nothing remains), and a
second application hits the falsy guard and yields `"Content not available"`. -/
theorem clean_html_text_not_idem :
    clean_html_text (some "<a>") = "" ∧
    clean_html_text (some (clean_html_text (some "<a>"))) =
      "Content not available" ∧
    clean_html_text (some (clean_html_text (some "<a>"))) ≠
      clean_html_text (some "<a>") := by
  refine ⟨by decide, by decide, by decide⟩

theorem stripTagsFuel_id :
    ∀ (fuel : ℕ) (l : List Char), (∀ c ∈ l, c ≠ '<') →
      stripTagsFuel fuel l = l := by
  intro fuel
  induction fuel with
  | zero => intro l _; rfl
  | succ fuel ih =>
    intro l h
    cases l with
    | nil => rfl
    | cons c rest =>
      have hc : c ≠ '<' := h c (List.mem_cons_self c rest)
      simp only [stripTagsFuel]
      rw [if_neg hc, ih rest (fun d hd => h d (List.mem_cons_of_mem c hd))]

theorem stripTags_id (l : List Char) (h : ∀ c ∈ l, c ≠ '<') :
    stripTags l = l :=
  stripTagsFuel_id _ _ h

theorem replaceFuel_id (p : Char) (pat : List Char) (r : Char) :
    ∀ (fuel : ℕ) (l : List Char), (∀ c ∈ l, c ≠ p) →
      replaceFuel (p :: pat) r fuel l = l := by
  intro fuel
  induction fuel with
  | zero => intro l _; rfl
  | succ fuel ih =>
    intro l h
    cases l with
    | nil => rfl
    | cons c rest =>
      have hc : c ≠ p := h c (List.mem_cons_self c rest)
      have hm : headMatches (p :: pat) (c :: rest) = false := by
        have hd : decide (p = c) = false :=
          decide_eq_false (fun hpc => hc hpc.symm)
        simp [headMatches, hd]
      simp only [replaceFuel, hm, Bool.false_eq_true, if_false]
      rw [ih rest (fun d hd => h d (List.mem_cons_of_mem c hd))]

theorem pyReplace_id (p : Char) (pat : List Char) (r : Char) (l : List Char)
    (h : ∀ c ∈ l, c ≠ p) : pyReplace (p :: pat) r l = l :=
  replaceFuel_id p pat r l.length l h

theorem decodeEntities_id (l : List Char) (h : ∀ c ∈ l, c ≠ '&') :
    decodeEntities l = l := by
  unfold decodeEntities
  rw [pyReplace_id '&' ['n', 'b', 's', 'p', ';'] ' ' l h,
      pyReplace_id '&' ['a', 'm', 'p', ';'] '&' l h,
      pyReplace_id '&' ['l', 't', ';'] '<' l h,
      pyReplace_id '&' ['g', 't', ';'] '>' l h]

theorem mem_squashSp : ∀ {l : List Char} {c : Char}, c ∈ squashSp l → c ∈ l
  | [], _, h => h
  | [_], _, h => h
  | a :: b :: rest, c, h => by
    by_cases hab : a = ' ' ∧ b = ' '
    · rw [squashSp, if_pos hab] at h
      exact List.mem_cons_of_mem a (mem_squashSp h)
    · rw [squashSp, if_neg hab] at h
      rcases List.mem_cons.mp h with rfl | h2
      · exact List.mem_cons_self _ _
      · exact List.mem_cons_of_mem a (mem_squashSp h2)

theorem mem_squashSp_of_ne :
    ∀ {l : List Char} {c : Char}, c ∈ l → c ≠ ' ' → c ∈ squashSp l
  | [], c, h, _ => absurd h (List.not_mem_nil c)
  | [_], _, h, _ => by rwa [squashSp]
  | a :: b :: rest, c, h, hne => by
    by_cases hab : a = ' ' ∧ b = ' '
    · rw [squashSp, if_pos hab]
      rcases List.mem_cons.mp h with rfl | h2
      · exact absurd hab.1 hne
      · exact mem_squashSp_of_ne h2 hne
    · rw [squashSp, if_neg hab]
      rcases List.mem_cons.mp h with rfl | h2
      · exact List.mem_cons_self _ _
      · exact List.mem_cons_of_mem a (mem_squashSp_of_ne h2 hne)

/-- No two adjacent spaces. -/
def NoDbl (l : List Char) : Prop :=
  l.Chain' (fun a b => ¬(a = ' ' ∧ b = ' '))

theorem squashSp_head :
    ∀ (b : Char) (rest : List Char), (squashSp (b :: rest)).head? = some b
  | _, [] => rfl
  | b, c :: rest => by
    by_cases hbc : b = ' ' ∧ c = ' '
    · rw [squashSp, if_pos hbc, squashSp_head c rest, hbc.1, hbc.2]
    · rw [squashSp, if_neg hbc]
      rfl

theorem squashSp_noDbl : ∀ (l : List Char), NoDbl (squashSp l)
  | [] => List.chain'_nil
  | [c] => by rw [squashSp]; exact List.chain'_singleton c
  | a :: b :: rest => by
    by_cases hab : a = ' ' ∧ b = ' '
    · rw [squashSp, if_pos hab]
      exact squashSp_noDbl (b :: rest)
    · rw [squashSp, if_neg hab]
      refine List.chain'_cons'.mpr ⟨?_, squashSp_noDbl (b :: rest)⟩
      intro h hh
      rw [squashSp_head b rest] at hh
      cases Option.some.inj hh
      exact hab

theorem squashSp_eq_self : ∀ {l : List Char}, NoDbl l → squashSp l = l
  | [], _ => rfl
  | [_], _ => by rw [squashSp]
  | a :: b :: rest, h => by
    have h' := List.chain'_cons.mp h
    rw [squashSp, if_neg h'.1, squashSp_eq_self h'.2]

theorem head?_dropWhile (p : Char → Bool) :
    ∀ (l : List Char) (c : Char), (l.dropWhile p).head? = some c → p c = false := by
  intro l
  induction l with
  | nil => intro c h; simp at h
  | cons a rest ih =>
    intro c h
    rw [List.dropWhile_cons] at h
    by_cases hp : p a = true
    · rw [if_pos hp] at h
      exact ih c h
    · rw [if_neg hp] at h
      cases Option.some.inj h
      exact Bool.not_eq_true _ ▸ hp

theorem mem_dropWhile_of_neg (p : Char → Bool) :
    ∀ (l : List Char) (c : Char), c ∈ l → p c = false → c ∈ l.dropWhile p := by
  intro l
  induction l with
  | nil => intro c h _; exact absurd h (List.not_mem_nil c)
  | cons a rest ih =>
    intro c h hc
    rw [List.dropWhile_cons]
    by_cases hp : p a = true
    · rw [if_pos hp]
      rcases List.mem_cons.mp h with rfl | h2
      · rw [hc] at hp; exact absurd hp (by simp)
      · exact ih c h2 hc
    · rw [if_neg hp]
      exact h

theorem getLast?_dropWhile (p : Char → Bool) (l : List Char)
    (h : l.dropWhile p ≠ []) :
    (l.dropWhile p).getLast? = l.getLast? := by
  obtain ⟨pre, hpre⟩ := List.dropWhile_suffix (l := l) p
  conv_rhs => rw [← hpre]
  rw [List.getLast?_append]
  cases hgl : (l.dropWhile p).getLast? with
  | none => exact absurd (List.getLast?_eq_none_iff.mp hgl) h
  | some c => rfl

theorem mem_stripEnds {l : List Char} {c : Char} (h : c ∈ stripEnds l) :
    c ∈ l := by
  unfold stripEnds at h
  rw [List.mem_reverse] at h
  have h2 := (List.dropWhile_suffix isSpaceChar).subset h
  rw [List.mem_reverse] at h2
  exact (List.dropWhile_suffix isSpaceChar).subset h2

theorem mem_stripEnds_of_neg {l : List Char} {c : Char} (h : c ∈ l)
    (hc : isSpaceChar c = false) : c ∈ stripEnds l := by
  unfold stripEnds
  rw [List.mem_reverse]
  apply mem_dropWhile_of_neg _ _ _ _ hc
  rw [List.mem_reverse]
  exact mem_dropWhile_of_neg _ _ _ h hc

theorem stripEnds_noDbl {l : List Char} (h : NoDbl l) : NoDbl (stripEnds l) := by
  have hsym : ∀ {x : List Char}, NoDbl x → NoDbl x.reverse := by
    intro x hx
    rw [NoDbl, List.chain'_reverse]
    exact hx.imp (fun {a b} hab h2 => hab ⟨h2.2, h2.1⟩)
  exact hsym ((hsym (h.suffix (List.dropWhile_suffix _))).suffix
    (List.dropWhile_suffix _))

theorem stripEnds_head (l : List Char) :
    ∀ c, (stripEnds l).head? = some c → isSpaceChar c = false := by
  intro c h
  unfold stripEnds at h
  rw [List.head?_reverse] at h
  have hne : (l.dropWhile isSpaceChar).reverse.dropWhile isSpaceChar ≠ [] := by
    intro h0
    rw [h0] at h
    exact Option.noConfusion h
  rw [getLast?_dropWhile _ _ hne, List.getLast?_reverse] at h
  exact head?_dropWhile _ _ _ h

theorem stripEnds_last (l : List Char) :
    ∀ c, (stripEnds l).getLast? = some c → isSpaceChar c = false := by
  intro c h
  unfold stripEnds at h
  rw [List.getLast?_reverse] at h
  exact head?_dropWhile _ _ _ h

theorem stripEnds_eq_self {l : List Char}
    (h0 : ∀ c, l.head? = some c → isSpaceChar c = false)
    (h1 : ∀ c, l.getLast? = some c → isSpaceChar c = false) :
    stripEnds l = l := by
  have hd : l.dropWhile isSpaceChar = l := by
    cases l with
    | nil => rfl
    | cons a rest =>
      rw [List.dropWhile_cons, if_neg (by rw [h0 a rfl]; simp)]
  unfold stripEnds
  rw [hd]
  have hd2 : l.reverse.dropWhile isSpaceChar = l.reverse := by
    cases hrev : l.reverse with
    | nil => rfl
    | cons a rest =>
      have hla : l.getLast? = some a := by
        rw [← List.head?_reverse, hrev]
        rfl
      rw [List.dropWhile_cons, if_neg (by rw [h1 a hla]; simp)]
  rw [hd2, List.reverse_reverse]

/-- C6 (amended): the narrative-text stripping transform is not idempotent in
general (stripping can empty the string, whose second pass yields the
placeholder, and entity decoding can create tags that a second pass strips);
it is idempotent on inputs that contain no `<` and no `&` and at least one
character outside the whitespace set. -/
theorem clean_html_text_idem_plain (s : String)
    (hlt : ∀ c ∈ s.data, c ≠ '<') (hamp : ∀ c ∈ s.data, c ≠ '&')
    (hnws : ∃ c ∈ s.data, isSpaceChar c = false) :
    clean_html_text (some (clean_html_text (some s))) =
      clean_html_text (some s) := by
  obtain ⟨c0, hc0mem, hc0⟩ := hnws
  have hne : s.data.isEmpty = false := by
    cases hd : s.data with
    | nil => rw [hd] at hc0mem; exact absurd hc0mem (List.not_mem_nil c0)
    | cons a rest => rfl
  have hstrip : stripTags s.data = s.data := stripTags_id _ hlt
  have hdec : decodeEntities s.data = s.data := decodeEntities_id _ hamp
  have hclean1 : clean_html_text (some s) =
      String.mk (stripEnds (collapseWs s.data)) := by
    show (if s.data.isEmpty then "Content not available"
      else String.mk (cleanCore s.data)) = _
    rw [hne]
    show String.mk (cleanCore s.data) = _
    rw [cleanCore, hstrip, hdec]
  set r : List Char := stripEnds (collapseWs s.data) with hrdef
  have hrsub : ∀ c ∈ r, c ∈ s.data.map spaceify := by
    intro c hc
    exact mem_squashSp (mem_stripEnds hc)
  have himg : ∀ c ∈ r, c = ' ' ∨ c ∈ s.data := by
    intro c hc
    obtain ⟨a, ha, hspa⟩ := List.mem_map.mp (hrsub c hc)
    by_cases hsa : isSpaceChar a = true
    · left
      rw [← hspa, spaceify, if_pos hsa]
    · right
      rw [← hspa, spaceify, if_neg hsa]
      exact ha
  have hrlt : ∀ c ∈ r, c ≠ '<' := by
    intro c hc
    rcases himg c hc with rfl | hc2
    · decide
    · exact hlt c hc2
  have hramp : ∀ c ∈ r, c ≠ '&' := by
    intro c hc
    rcases himg c hc with rfl | hc2
    · decide
    · exact hamp c hc2
  have hrspace : ∀ c ∈ r, isSpaceChar c = true → c = ' ' := by
    intro c hc hsp
    obtain ⟨a, _, hspa⟩ := List.mem_map.mp (hrsub c hc)
    by_cases hsa : isSpaceChar a = true
    · rw [← hspa, spaceify, if_pos hsa]
    · exfalso
      rw [← hspa, spaceify, if_neg hsa] at hsp
      exact hsa hsp
  have hc0ne : c0 ≠ ' ' := by
    intro h0
    rw [h0] at hc0
    exact absurd hc0 (by decide)
  have hc0r : c0 ∈ r := by
    apply mem_stripEnds_of_neg _ hc0
    apply mem_squashSp_of_ne _ hc0ne
    have : spaceify c0 = c0 := by rw [spaceify, if_neg (by rw [hc0]; simp)]
    rw [← this]
    exact List.mem_map_of_mem spaceify hc0mem
  have hrne : r ≠ [] := fun h0 => absurd (h0 ▸ hc0r) (List.not_mem_nil c0)
  have hrnodbl : NoDbl r := stripEnds_noDbl (squashSp_noDbl _)
  have hrneB : (String.mk r).data.isEmpty = false := by
    cases hr0 : r with
    | nil => exact absurd hr0 hrne
    | cons a rest => rfl
  rw [hclean1]
  show (if (String.mk r).data.isEmpty then "Content not available"
    else String.mk (cleanCore (String.mk r).data)) = String.mk r
  rw [hrneB]
  show String.mk (cleanCore r) = String.mk r
  have h1 : stripTags r = r := stripTags_id _ hrlt
  have h2 : decodeEntities r = r := decodeEntities_id _ hramp
  have h3 : r.map spaceify = r := by
    have hmc : List.map spaceify r = List.map id r := by
      apply List.map_congr_left
      intro c hc
      by_cases hsc : isSpaceChar c = true
      · rw [hrspace c hc hsc]
        rfl
      · show spaceify c = c
        rw [spaceify, if_neg hsc]
    rw [hmc, List.map_id]
  have h4 : squashSp r = r := squashSp_eq_self hrnodbl
  have h5 : stripEnds r = r := stripEnds_eq_self (stripEnds_head _) (stripEnds_last _)
  rw [cleanCore, h1, h2, collapseWs, h3, h4, h5]

/-- C6 witness: the restricted idempotence applied to the concrete plain
string `"ab  c"`. -/
theorem clean_html_text_idem_plain_witness :
    clean_html_text (some (clean_html_text (some "ab  c"))) =
      clean_html_text (some "ab  c") :=
  clean_html_text_idem_plain "ab  c" (by decide) (by decide)
    ⟨'a', by decide, by decide⟩

/-
The narrative slots of the two outputs.  `main` builds six charts and one
summary per chart (`summaries[name] = generate_chart_summary(...)`), one
executive summary, and one priority detail per filter, then calls `build_html`
(lines 486-1777) and only afterwards `generate_ppt_report`.  In the HTML
template the executive summary is rendered from
`exec_summary or "No summary available."` (line 1770), the priority block from
`{{ priority_details['ALL']|safe }}` (Jinja renders `None` as the string
"None"), and the chart insights by iterating
`chart_summaries[name].splitlines()` (line 1222) — on an absent summary the
attribute lookup yields an undefined value whose call raises, aborting the
render before the file is written.  The PPT side passes every slot through
`clean_html_text`.
-/

def chartNames : List String :=
  ["Hazard Risk Breakdown", "Location vs Hazard Analysis",
   "Risk Contribution by Hazard Type", "Hierarchical Risk Distribution",
   "Risk vs Priority Correlation", "Total Risk Assessment by Location"]

/-- Python `.strip()` on a string. -/
def pyStrip (s : String) : String := String.mk (stripEnds s.data)

/-- `{{ x|safe }}` on a possibly-absent value: Jinja prints `None`. -/
def jinjaSafeStr : Option String → String
  | none => "None"
  | some s => s

/-- One chart's Key-Insights block: `chart_summaries[name].splitlines()`
filtered to non-blank lines, each stripped of bullet markers (template lines
1221-1225).  An absent summary raises at render time. -/
def renderChartInsight (summary : Option String) : Except Unit (List String) :=
  match summary with
  | none => Except.error ()
  | some s => Except.ok
      (((s.splitOn "\n").filter (fun ln => !(pyStrip ln == ""))).map
        (fun ln => pyStrip (String.mk
          (((pyStrip ln).data.dropWhile (fun c => c == '•')).dropWhile
            (fun c => c == '-')))))

structure HtmlNarrative where
  execSlot      : String
  chartInsights : List (String × List String)
  prioritySlot  : String
deriving Repr

/-- The narrative slots of `build_html`: executive summary (with the `or`
default), six chart-insight blocks, and the initially shown priority block. -/
def build_html_narrative (chartSummaries : String → Option String)
    (e : Option String) (pd : String → Option String) :
    Except Unit HtmlNarrative := do
  let insights ← chartNames.mapM
    (fun n => (renderChartInsight (chartSummaries n)).map (fun ls => (n, ls)))
  Except.ok
    { execSlot := match e with
        | none => "No summary available."
        | some t => if t = "" then "No summary available." else t
      chartInsights := insights
      prioritySlot := jinjaSafeStr (pd "ALL") }

structure PptNarrative where
  execSlide : String
  highSlide : String
  medSlide  : String
deriving Repr

/-- The narrative slots of the slide deck: `create_executive_summary_slide`
(line 197) and the two `create_priority_slide` calls (lines 121-126, via line
325) all run the text through `clean_html_text`. -/
def create_ppt_narrative (e : Option String) (pd : String → Option String) :
    PptNarrative :=
  { execSlide := clean_html_text e
    highSlide := clean_html_text (pd "HIGH")
    medSlide  := clean_html_text (pd "MEDIUM") }

/-- `main`'s narrative path: every slot is one `generate_text` result;
`build_html` runs first and an exception there propagates, so the PPT step is
only reached when the HTML render succeeded. -/
def pipeline_narratives (gen : String → Option String) :
    Except Unit (HtmlNarrative × PptNarrative) :=
  match build_html_narrative (fun n => gen n) (gen "exec_summary")
      (fun p => gen p) with
  | Except.error e => Except.error e
  | Except.ok h =>
      Except.ok (h, create_ppt_narrative (gen "exec_summary") (fun p => gen p))

/-- C3 counterexample: with a text-generation call that fails on every
invocation, the pipeline does not produce its outputs — the HTML render
raises on the first chart-insight slot, aborting before the deck is built. -/
theorem pipeline_allfail_counterexample :
    pipeline_narratives (fun _ => none) = Except.error () := rfl

/-- C3 (amended): if the text-generation call fails on every invocation, the
PPT narrative slots would all carry the placeholder `"Content not available"`
(that is what `clean_html_text` maps an absent value to), but the HTML build
raises while rendering a chart-insight slot (an absent summary cannot be
split into lines) — and the executive-summary HTML slot uses a different
default, `"No summary available."` — so the pipeline aborts and produces
neither the HTML document nor the slide deck. -/
theorem pipeline_allfail_spec (gen : String → Option String)
    (hfail : ∀ p, gen p = none) :
    pipeline_narratives gen = Except.error () ∧
    clean_html_text none = "Content not available" ∧
    create_ppt_narrative (gen "exec_summary") (fun p => gen p) =
      { execSlide := "Content not available",
        highSlide := "Content not available",
        medSlide := "Content not available" } := by
  have hg : gen = (fun _ => none) := funext hfail
  subst hg
  exact ⟨rfl, rfl, rfl⟩

/-- C3 witness: the amended statement at the concrete always-failing
generator. -/
theorem pipeline_allfail_spec_witness :
    pipeline_narratives (fun _ => none) = Except.error () ∧
    clean_html_text none = "Content not available" ∧
    create_ppt_narrative none (fun _ => none) =
      { execSlide := "Content not available",
        highSlide := "Content not available",
        medSlide := "Content not available" } :=
  pipeline_allfail_spec (fun _ => none) (fun _ => rfl)
